import Mathlib

/-!
Verification development for the Triton kernel wrapping subsystem
(`torch/_higher_order_ops/triton_kernel_wrap.py`): the kernel side table,
the AST mutation tracker, the dense/fake implementations of the mutation
and functional wrapper operators, and the functionalization bridge.
-/

namespace TritonWrap

/-- Error taxonomy of the subsystem: `unknownHandle` is the failed
assertion in `KernelSideTable.get_kernel`; `unsupportedWriteNesting` is a
failed nesting assertion in `MutationTracker.visit_Call`;
`mutatedOutputOutOfScope` is the failed subset assertion in
`triton_kernel_wrapper_mutation_functionalize`; `assertionError` is the
tensor-type assertion there. -/
inductive Err where
  | unknownHandle
  | unsupportedWriteNesting
  | mutatedOutputOutOfScope
  | assertionError

deriving DecidableEq

/-- First-match association-list lookup, the model of Python dict
membership and indexing. -/
def lookupKey [DecidableEq α] (a : α) : List (α × β) → Option β
  | [] => none
  | p :: rest => if p.1 = a then some p.2 else lookupKey a rest

/-- Model of `KernelSideTable`: two dicts so that fetching both the kernel
and the id are O(1).  `K` is the type of opaque, identity-comparable
kernels. -/
structure Table (K : Type) where
  id_to_kernel : List (Nat × K)
  kernel_to_id : List (K × Nat)

/-- The initial (empty) side table. -/
def initTable (K : Type) : Table K := ⟨[], []⟩

/-- Model of `KernelSideTable.add_kernel`: return the existing index if the
kernel was already registered, otherwise allocate the next sequential index
and insert into both dicts. -/
def add_kernel [DecidableEq K] (t : Table K) (kernel : K) : Nat × Table K :=
  match lookupKey kernel t.kernel_to_id with
  | some i => (i, t)
  | none =>
    (t.id_to_kernel.length,
     ⟨t.id_to_kernel ++ [(t.id_to_kernel.length, kernel)],
      t.kernel_to_id ++ [(kernel, t.id_to_kernel.length)]⟩)

/-- Model of `KernelSideTable.get_kernel`: assert the index is present,
then return the kernel stored at it. -/
def get_kernel (t : Table K) (idx : Nat) : Except Err K :=
  match lookupKey idx t.id_to_kernel with
  | some k => .ok k
  | none => .error .unknownHandle

/-- Model of `KernelSideTable.reset_table`: reassign both dicts to fresh
empty dicts. -/
def reset_table (_t : Table K) : Table K := initTable K

/-- A sequence of `add_kernel` calls, returning the final table and the
list of returned handles. -/
def registerList [DecidableEq K] (t : Table K) : List K → Table K × List Nat
  | [] => (t, [])
  | k :: ks =>
    let r := add_kernel t k
    let rest := registerList r.2 ks
    (rest.1, r.1 :: rest.2)

/-- The two dicts are mutual inverses (under first-match lookup). -/
def TableInv [DecidableEq K] (t : Table K) : Prop :=
  ∀ i k, lookupKey i t.id_to_kernel = some k ↔ lookupKey k t.kernel_to_id = some i

/-- The assigned handles are exactly the indices below the table length. -/
def TableDom (t : Table K) : Prop :=
  ∀ i, (lookupKey i t.id_to_kernel).isSome ↔ i < t.id_to_kernel.length

/-- Well-formedness of the side table. -/
def TableWF [DecidableEq K] (t : Table K) : Prop := TableInv t ∧ TableDom t

/-- Per-argument record kept by the mutation tracker: `mutated` (argument
appears inside a store) and `used_in_unknown` (argument appears in a
position the analyzer does not understand). -/
structure MutationInfo where
  mutated : Bool := false
  used_in_unknown : Bool := false

deriving DecidableEq

/-- The mutable visitor state of `MutationTracker`: the per-name infos
dict, the read-context depth counter and the in-store flag. -/
structure TrackerState where
  infos : List (String × MutationInfo)
  read_depth : Nat
  in_store : Bool

deriving DecidableEq

/- Model of the fragment of the Python AST that `MutationTracker`
distinguishes: `pyname` is `ast.Name`; `attrRef` is `ast.Attribute`
(whose visit descends into its value); `ifExp` is `ast.IfExp` with
children in field order (body, test, orelse); `call` is `ast.Call`
carrying its function expression and arguments; `node` is any other node
kind, carrying its child expressions. -/
mutual
inductive PyExpr where
  | pyname (id : String)
  | attrRef (value : PyExpr) (attr : String)
  | ifExp (body test orelse : PyExpr)
  | call (func : PyExpr) (args : PyExprList)
  | node (children : PyExprList)
inductive PyExprList where
  | nil
  | cons (e : PyExpr) (es : PyExprList)
end

/-- The allow-list of read-only `tl` helper calls. -/
def ALLOWED_READ_FNS : List String :=
  ["load", "max_constancy", "max_contiguous", "multiple_of",
   "static_print", "static_assert", "device_print", "device_assert"]

/-- Set the `mutated` flag of the given name in the infos dict. -/
def markMutated (infos : List (String × MutationInfo)) (id : String) :
    List (String × MutationInfo) :=
  infos.map (fun p => if p.1 = id then (p.1, { p.2 with mutated := true }) else p)

/-- Set the `used_in_unknown` flag of the given name in the infos dict. -/
def markUnknown (infos : List (String × MutationInfo)) (id : String) :
    List (String × MutationInfo) :=
  infos.map (fun p => if p.1 = id then (p.1, { p.2 with used_in_unknown := true }) else p)

/-- Model of `MutationTracker.visit_Name`: untracked names are ignored;
inside a read context nothing is recorded; inside a store the name is
marked mutated; otherwise it is marked used-in-unknown. -/
def visit_Name (st : TrackerState) (id : String) : TrackerState :=
  if (lookupKey id st.infos).isNone then st
  else if 0 < st.read_depth then st
  else if st.in_store then { st with infos := markMutated st.infos id }
  else { st with infos := markUnknown st.infos id }

/-- Classify a call's function expression: `some attr` when it is the
attribute access `tl.attr` on the literal name `tl`, as tested by
`MutationTracker.visit_Call`; otherwise `none`. -/
def funcKind : PyExpr → Option String
  | .attrRef (.pyname m) attr => if m = "tl" then some attr else none
  | _ => none

/- Model of `MutationTracker.visit` / `visit_Call` / `generic_visit`.
A `tl.store` call asserts it is not inside a read context nor another
store, then visits its children with the in-store flag set; a call to an
allowed read function visits its children at increased read depth; any
other node visits its children with unchanged state.  As in the Python
visitor, `generic_visit` of a call also visits the function expression
(hence the name `tl` itself). -/
mutual
def visitExpr (st : TrackerState) : PyExpr → Except Err TrackerState
  | .pyname id => .ok (visit_Name st id)
  | .attrRef v _ => visitExpr st v
  | .ifExp b t e => do
      let s1 ← visitExpr st b
      let s2 ← visitExpr s1 t
      visitExpr s2 e
  | .call f args =>
      match funcKind f with
      | some attr =>
        if attr = "store" then
          if st.read_depth = 0 ∧ st.in_store = false then do
            let s1 ← visitExpr { st with in_store := true } f
            let s2 ← visitList s1 args
            .ok { s2 with in_store := false }
          else .error .unsupportedWriteNesting
        else if attr ∈ ALLOWED_READ_FNS then do
          let s1 ← visitExpr { st with read_depth := st.read_depth + 1 } f
          let s2 ← visitList s1 args
          .ok { s2 with read_depth := s2.read_depth - 1 }
        else do
          let s1 ← visitExpr st f
          visitList s1 args
      | none => do
        let s1 ← visitExpr st f
        visitList s1 args
  | .node cs => visitList st cs
def visitList (st : TrackerState) : PyExprList → Except Err TrackerState
  | .nil => .ok st
  | .cons e es => do
      let s1 ← visitExpr st e
      visitList s1 es
end

/-- The dict comprehension building one fresh `MutationInfo` per tracked
name (Python dicts keep the first occurrence of a key). -/
def dictFromKeys (tensors : List String) : List (String × MutationInfo) :=
  tensors.foldl (fun d n => if (lookupKey n d).isSome then d else d ++ [(n, ⟨false, false⟩)]) []

/-- Run the mutation tracker over a kernel syntax tree with the given
tracked names, returning the final visitor state. -/
def analyze (kernel : PyExpr) (tensors : List String) : Except Err TrackerState :=
  visitExpr ⟨dictFromKeys tensors, 0, false⟩ kernel

/-- Model of `filter_non_mutated`: the names whose final info has the
`mutated` or the `used_in_unknown` flag set. -/
def filter_non_mutated (kernel : PyExpr) (tensors : List String) :
    Except Err (List String) := do
  let st ← analyze kernel tensors
  .ok ((st.infos.filter (fun p => p.2.mutated || p.2.used_in_unknown)).map Prod.fst)

/- Syntactic presence of a `tl.store` call in an expression. -/
mutual
def containsStore : PyExpr → Bool
  | .pyname _ => false
  | .attrRef v _ => containsStore v
  | .ifExp b t e => containsStore b || containsStore t || containsStore e
  | .call f args => decide (funcKind f = some "store") || containsStore f ||
      containsStoreList args
  | .node cs => containsStoreList cs
def containsStoreList : PyExprList → Bool
  | .nil => false
  | .cons e es => containsStore e || containsStoreList es
end

/-- The kernel `tl.store(p, x)` used as concrete input for C1. -/
def storeKernelW : PyExpr :=
  .call (.attrRef (.pyname "tl") "store") (.cons (.pyname "p") (.cons (.pyname "x") .nil))

/-- The kernel `a if tl.store(p) else b`: a store inside the condition of
a conditional expression, with no enclosing read or store. -/
def condStoreKernel : PyExpr :=
  .node (.cons (.ifExp (.pyname "a")
    (.call (.attrRef (.pyname "tl") "store") (.cons (.pyname "p") .nil))
    (.pyname "b")) .nil)

/-- The kernel `tl.load(a if tl.store(p) else z)` from the source comment:
a store in the condition of a conditional expression nested in a read. -/
def loadCondStoreKernel : PyExpr :=
  .call (.attrRef (.pyname "tl") "load")
    (.cons (.ifExp (.pyname "a")
      (.call (.attrRef (.pyname "tl") "store") (.cons (.pyname "p") .nil))
      (.pyname "z")) .nil)

inductive Val where
  | scalar (n : Int)
  | buf (a : Nat)

deriving DecidableEq

def Val.isBuf : Val → Bool
  | .buf _ => true
  | .scalar _ => false

structure Heap where
  mem : Nat → List Int
  next : Nat

def clone_preserve_strides (h : Heap) (v : Val) : Val × Heap :=
  match v with
  | .scalar n => (.scalar n, h)
  | .buf a => (.buf h.next,
      ⟨fun x => if x = h.next then h.mem a else h.mem x, h.next + 1⟩)

def KernelSem : Type := List (String × Val) → Heap → Heap

def triton_kernel_wrapper_mutation_dense (run : KernelSem) (kwargs : List (String × Val))
    (h : Heap) : Heap := run kwargs h

def buildWorkingCopy (h : Heap) : List (String × Val) → List String →
    (List (String × Val)) × Heap
  | [], _ => ([], h)
  | (k, v) :: rest, ttc =>
    if k ∈ ttc then
      let r := clone_preserve_strides h v
      let w := buildWorkingCopy r.2 rest ttc
      ((k, r.1) :: w.1, w.2)
    else
      let w := buildWorkingCopy h rest ttc
      ((k, v) :: w.1, w.2)

def triton_kernel_wrapper_functional_dense (run : KernelSem) (h : Heap)
    (kwargs : List (String × Val)) (tensors_to_clone : List String) :
    (List (String × Val)) × Heap :=
  let w := buildWorkingCopy h kwargs tensors_to_clone
  let h2 := triton_kernel_wrapper_mutation_dense run w.1 w.2
  (w.1.filter (fun p => decide (p.1 ∈ tensors_to_clone)), h2)

def triton_kernel_wrapper_mutation_fake_tensor_mode (h : Heap) (_kernel_idx : Nat)
    (_kwargs : List (String × Val)) : Option Val × Heap := (none, h)

def triton_kernel_wrapper_functional_fake_tensor_mode (h : Heap) :
    List (String × Val) → List String → (List (String × Val)) × Heap
  | [], _ => ([], h)
  | (k, v) :: rest, ttc =>
    if k ∈ ttc then
      let r := clone_preserve_strides h v
      let w := triton_kernel_wrapper_functional_fake_tensor_mode r.2 rest ttc
      ((k, r.1) :: w.1, w.2)
    else triton_kernel_wrapper_functional_fake_tensor_mode h rest ttc

def demoWriteRun : KernelSem := fun b hh =>
  match lookupKey "x" b with
  | some (Val.buf a) => ⟨fun i => if i = a then [42] else hh.mem i, hh.next⟩
  | _ => hh

def demoHeap : Heap := ⟨fun _ => [0], 1⟩

/-- Events issued on the functionalization context by the bridge's
reconciliation loop, in program order. -/
inductive FEvent where
  | replaceEv (k : String) (v : Val)
  | markHiddenEv (k : String)
  | commitEv (k : String)
  | syncEv (k : String)

deriving DecidableEq

/-- The reconciliation loop of `triton_kernel_wrapper_mutation_functionalize`:
for each returned entry, skip non-tensor values, assert the original
argument is a tensor, and emit replace, mark-hidden-from-autograd, commit,
sync, and (because sync may trigger an internal replace) mark-hidden again,
in that order. -/
def reconcileLoop (kwargs : List (String × Val)) :
    List (String × Val) → Except Err (List FEvent)
  | [] => .ok []
  | (k, v) :: rest =>
    match v with
    | .scalar _ => reconcileLoop kwargs rest
    | .buf a =>
      match lookupKey k kwargs with
      | some (.buf _) => do
          let evs ← reconcileLoop kwargs rest
          .ok ([.replaceEv k (.buf a), .markHiddenEv k, .commitEv k,
                .syncEv k, .markHiddenEv k] ++ evs)
      | _ => .error .assertionError

/-- Model of `triton_kernel_wrapper_mutation_functionalize`: collect the
tensor-typed keys, fetch the kernel from the side table, run the mutation
analysis to get the names to clone, invoke the functional form (the
dispatched call is abstracted as `functionalImpl`), assert the returned
keys are a subset of the bundle's keys (else `mutatedOutputOutOfScope`),
then run the reconciliation loop and return `None`. -/
def triton_kernel_wrapper_mutation_functionalize (t : Table PyExpr) (kernel_idx : Nat)
    (kwargs : List (String × Val))
    (functionalImpl : List (String × Val) → List String → List (String × Val)) :
    Except Err (List FEvent × Option Val) := do
  let tensorKeys := (kwargs.filter (fun p => p.2.isBuf)).map Prod.fst
  let kernel ← get_kernel t kernel_idx
  let tensors_to_clone ← filter_non_mutated kernel tensorKeys
  let outs := functionalImpl kwargs tensors_to_clone
  if outs.all (fun p => (lookupKey p.1 kwargs).isSome) then do
    let evs ← reconcileLoop kwargs outs
    .ok (evs, none)
  else .error .mutatedOutputOutOfScope

theorem okBind {α β : Type} (a : α) (f : α → Except Err β) :
    (Except.ok a >>= f) = f a := rfl

theorem errBind {α β : Type} (e : Err) (f : α → Except Err β) :
    ((Except.error e : Except Err α) >>= f) = Except.error e := rfl

theorem visit_Name_fields (st : TrackerState) (id : String) :
    (visit_Name st id).read_depth = st.read_depth ∧
      (visit_Name st id).in_store = st.in_store := by
  unfold visit_Name
  split
  · exact ⟨rfl, rfl⟩
  · split
    · exact ⟨rfl, rfl⟩
    · split <;> exact ⟨rfl, rfl⟩

mutual

theorem visitExpr_preserves (st : TrackerState) (e : PyExpr) (st' : TrackerState)
    (h : visitExpr st e = .ok st') :
    st'.read_depth = st.read_depth ∧ st'.in_store = st.in_store := by
  cases e with
  | pyname id =>
    simp only [visitExpr] at h
    injection h with h
    subst h
    exact visit_Name_fields st id
  | attrRef v a =>
    simp only [visitExpr] at h
    exact visitExpr_preserves st v st' h
  | ifExp b t e' =>
    simp only [visitExpr] at h
    cases hb : visitExpr st b with
    | error e1 => rw [hb, errBind] at h; exact absurd h (by simp)
    | ok s1 =>
      rw [hb, okBind] at h
      cases ht : visitExpr s1 t with
      | error e1 => rw [ht, errBind] at h; exact absurd h (by simp)
      | ok s2 =>
        rw [ht, okBind] at h
        have p1 := visitExpr_preserves st b s1 hb
        have p2 := visitExpr_preserves s1 t s2 ht
        have p3 := visitExpr_preserves s2 e' st' h
        exact ⟨by omega, by rw [p3.2, p2.2, p1.2]⟩
  | node cs =>
    simp only [visitExpr] at h
    exact visitList_preserves st cs st' h
  | call f args =>
    simp only [visitExpr] at h
    split at h
    · rename_i attr hk
      by_cases ha : attr = "store"
      · rw [if_pos ha] at h
        by_cases hcond : st.read_depth = 0 ∧ st.in_store = false
        · rw [if_pos hcond] at h
          cases hf : visitExpr { st with in_store := true } f with
          | error e1 => rw [hf, errBind] at h; exact absurd h (by simp)
          | ok s1 =>
            rw [hf, okBind] at h
            cases hl : visitList s1 args with
            | error e1 => rw [hl, errBind] at h; exact absurd h (by simp)
            | ok s2 =>
              rw [hl, okBind] at h
              injection h with h
              subst h
              have p1 := visitExpr_preserves _ f _ hf
              have p2 := visitList_preserves _ args _ hl
              have p1' : s1.read_depth = st.read_depth := p1.1
              refine ⟨?_, ?_⟩
              · show s2.read_depth = st.read_depth
                omega
              · show false = st.in_store
                exact hcond.2.symm
        · rw [if_neg hcond] at h
          exact absurd h (by simp)
      · rw [if_neg ha] at h
        by_cases hr : attr ∈ ALLOWED_READ_FNS
        · rw [if_pos hr] at h
          cases hf : visitExpr { st with read_depth := st.read_depth + 1 } f with
          | error e1 => rw [hf, errBind] at h; exact absurd h (by simp)
          | ok s1 =>
            rw [hf, okBind] at h
            cases hl : visitList s1 args with
            | error e1 => rw [hl, errBind] at h; exact absurd h (by simp)
            | ok s2 =>
              rw [hl, okBind] at h
              injection h with h
              subst h
              have p1 := visitExpr_preserves _ f _ hf
              have p2 := visitList_preserves _ args _ hl
              have p1' : s1.read_depth = st.read_depth + 1 := p1.1
              have p1'' : s1.in_store = st.in_store := p1.2
              refine ⟨?_, ?_⟩
              · show s2.read_depth - 1 = st.read_depth
                omega
              · show s2.in_store = st.in_store
                rw [p2.2, p1'']
        · rw [if_neg hr] at h
          cases hf : visitExpr st f with
          | error e1 => rw [hf, errBind] at h; exact absurd h (by simp)
          | ok s1 =>
            rw [hf, okBind] at h
            have p1 := visitExpr_preserves st f s1 hf
            have p2 := visitList_preserves s1 args st' h
            exact ⟨by omega, by rw [p2.2, p1.2]⟩
    · cases hf : visitExpr st f with
      | error e1 => rw [hf, errBind] at h; exact absurd h (by simp)
      | ok s1 =>
        rw [hf, okBind] at h
        have p1 := visitExpr_preserves st f s1 hf
        have p2 := visitList_preserves s1 args st' h
        exact ⟨by omega, by rw [p2.2, p1.2]⟩

theorem visitList_preserves (st : TrackerState) (es : PyExprList) (st' : TrackerState)
    (h : visitList st es = .ok st') :
    st'.read_depth = st.read_depth ∧ st'.in_store = st.in_store := by
  cases es with
  | nil =>
    simp only [visitList] at h
    injection h with h
    subst h
    exact ⟨rfl, rfl⟩
  | cons e es' =>
    simp only [visitList] at h
    cases he : visitExpr st e with
    | error e1 => rw [he, errBind] at h; exact absurd h (by simp)
    | ok s1 =>
      rw [he, okBind] at h
      have p1 := visitExpr_preserves st e s1 he
      have p2 := visitList_preserves s1 es' st' h
      exact ⟨by omega, by rw [p2.2, p1.2]⟩

end

mutual

theorem visitExpr_error_payload (st : TrackerState) (e : PyExpr) (err : Err)
    (h : visitExpr st e = .error err) : err = .unsupportedWriteNesting := by
  cases e with
  | pyname id => simp [visitExpr] at h
  | attrRef v a =>
    simp only [visitExpr] at h
    exact visitExpr_error_payload st v err h
  | ifExp b t e' =>
    simp only [visitExpr] at h
    cases hb : visitExpr st b with
    | error e1 =>
      rw [hb, errBind] at h
      injection h with h
      subst h
      exact visitExpr_error_payload st b _ hb
    | ok s1 =>
      rw [hb, okBind] at h
      cases ht : visitExpr s1 t with
      | error e1 =>
        rw [ht, errBind] at h
        injection h with h
        subst h
        exact visitExpr_error_payload s1 t _ ht
      | ok s2 =>
        rw [ht, okBind] at h
        exact visitExpr_error_payload s2 e' err h
  | node cs =>
    simp only [visitExpr] at h
    exact visitList_error_payload st cs err h
  | call f args =>
    simp only [visitExpr] at h
    split at h
    · rename_i attr hk
      by_cases ha : attr = "store"
      · rw [if_pos ha] at h
        by_cases hcond : st.read_depth = 0 ∧ st.in_store = false
        · rw [if_pos hcond] at h
          cases hf : visitExpr { st with in_store := true } f with
          | error e1 =>
            rw [hf, errBind] at h
            injection h with h
            subst h
            exact visitExpr_error_payload _ f _ hf
          | ok s1 =>
            rw [hf, okBind] at h
            cases hl : visitList s1 args with
            | error e1 =>
              rw [hl, errBind] at h
              injection h with h
              subst h
              exact visitList_error_payload _ args _ hl
            | ok s2 =>
              rw [hl, okBind] at h
              exact absurd h (by simp)
        · rw [if_neg hcond] at h
          injection h with h
          exact h.symm
      · rw [if_neg ha] at h
        by_cases hr : attr ∈ ALLOWED_READ_FNS
        · rw [if_pos hr] at h
          cases hf : visitExpr { st with read_depth := st.read_depth + 1 } f with
          | error e1 =>
            rw [hf, errBind] at h
            injection h with h
            subst h
            exact visitExpr_error_payload _ f _ hf
          | ok s1 =>
            rw [hf, okBind] at h
            cases hl : visitList s1 args with
            | error e1 =>
              rw [hl, errBind] at h
              injection h with h
              subst h
              exact visitList_error_payload _ args _ hl
            | ok s2 =>
              rw [hl, okBind] at h
              exact absurd h (by simp)
        · rw [if_neg hr] at h
          cases hf : visitExpr st f with
          | error e1 =>
            rw [hf, errBind] at h
            injection h with h
            subst h
            exact visitExpr_error_payload st f _ hf
          | ok s1 =>
            rw [hf, okBind] at h
            exact visitList_error_payload s1 args err h
    · cases hf : visitExpr st f with
      | error e1 =>
        rw [hf, errBind] at h
        injection h with h
        subst h
        exact visitExpr_error_payload st f _ hf
      | ok s1 =>
        rw [hf, okBind] at h
        exact visitList_error_payload s1 args err h

theorem visitList_error_payload (st : TrackerState) (es : PyExprList) (err : Err)
    (h : visitList st es = .error err) : err = .unsupportedWriteNesting := by
  cases es with
  | nil => simp [visitList] at h
  | cons e es' =>
    simp only [visitList] at h
    cases he : visitExpr st e with
    | error e1 =>
      rw [he, errBind] at h
      injection h with h
      subst h
      exact visitExpr_error_payload st e _ he
    | ok s1 =>
      rw [he, okBind] at h
      exact visitList_error_payload s1 es' err h

end

mutual

theorem visitExpr_store_nested (st : TrackerState) (e : PyExpr)
    (hc : containsStore e = true) (hbad : 0 < st.read_depth ∨ st.in_store = true) :
    visitExpr st e = .error .unsupportedWriteNesting := by
  cases e with
  | pyname id => simp [containsStore] at hc
  | attrRef v a =>
    simp only [containsStore] at hc
    simp only [visitExpr]
    exact visitExpr_store_nested st v hc hbad
  | ifExp b t e' =>
    simp only [containsStore, Bool.or_eq_true] at hc
    simp only [visitExpr]
    rcases hc with (hcb | hct) | hce
    · rw [visitExpr_store_nested st b hcb hbad, errBind]
    · cases hvb : visitExpr st b with
      | error e1 =>
        have hE := visitExpr_error_payload st b e1 hvb
        subst hE
        rw [errBind]
      | ok s1 =>
        rw [okBind]
        have p := visitExpr_preserves st b s1 hvb
        have hbad1 : 0 < s1.read_depth ∨ s1.in_store = true := by
          rcases hbad with h2 | h2
          · exact Or.inl (by omega)
          · exact Or.inr (by rw [p.2, h2])
        rw [visitExpr_store_nested s1 t hct hbad1, errBind]
    · cases hvb : visitExpr st b with
      | error e1 =>
        have hE := visitExpr_error_payload st b e1 hvb
        subst hE
        rw [errBind]
      | ok s1 =>
        rw [okBind]
        have p := visitExpr_preserves st b s1 hvb
        have hbad1 : 0 < s1.read_depth ∨ s1.in_store = true := by
          rcases hbad with h2 | h2
          · exact Or.inl (by omega)
          · exact Or.inr (by rw [p.2, h2])
        cases hvt : visitExpr s1 t with
        | error e1 =>
          have hE := visitExpr_error_payload s1 t e1 hvt
          subst hE
          rw [errBind]
        | ok s2 =>
          rw [okBind]
          have p2 := visitExpr_preserves s1 t s2 hvt
          have hbad2 : 0 < s2.read_depth ∨ s2.in_store = true := by
            rcases hbad1 with h2 | h2
            · exact Or.inl (by omega)
            · exact Or.inr (by rw [p2.2, h2])
          exact visitExpr_store_nested s2 e' hce hbad2
  | node cs =>
    simp only [containsStore] at hc
    simp only [visitExpr]
    exact visitList_store_nested st cs hc hbad
  | call f args =>
    simp only [containsStore, Bool.or_eq_true] at hc
    simp only [visitExpr]
    split
    · rename_i attr hk
      by_cases ha : attr = "store"
      · have hn : ¬(st.read_depth = 0 ∧ st.in_store = false) := by
          rintro ⟨h0, hs⟩
          rcases hbad with h2 | h2
          · omega
          · rw [h2] at hs; cases hs
        rw [if_pos ha, if_neg hn]
      · rw [if_neg ha]
        by_cases hr : attr ∈ ALLOWED_READ_FNS
        · rw [if_pos hr]
          rcases hc with (h1 | h1) | h1
          · rw [hk] at h1
            simp at h1
            exact absurd h1 ha
          · rw [visitExpr_store_nested { st with read_depth := st.read_depth + 1 } f h1
              (Or.inl (Nat.succ_pos _)), errBind]
          · cases hvf : visitExpr { st with read_depth := st.read_depth + 1 } f with
            | error e1 =>
              have hE := visitExpr_error_payload _ f e1 hvf
              subst hE
              rw [errBind]
            | ok s1 =>
              rw [okBind]
              have p := visitExpr_preserves _ f s1 hvf
              have p1 : s1.read_depth = st.read_depth + 1 := p.1
              rw [visitList_store_nested s1 args h1 (Or.inl (by omega)), errBind]
        · rw [if_neg hr]
          rcases hc with (h1 | h1) | h1
          · rw [hk] at h1
            simp at h1
            exact absurd h1 ha
          · rw [visitExpr_store_nested st f h1 hbad, errBind]
          · cases hvf : visitExpr st f with
            | error e1 =>
              have hE := visitExpr_error_payload st f e1 hvf
              subst hE
              rw [errBind]
            | ok s1 =>
              rw [okBind]
              have p := visitExpr_preserves st f s1 hvf
              refine visitList_store_nested s1 args h1 ?_
              rcases hbad with h2 | h2
              · exact Or.inl (by omega)
              · exact Or.inr (by rw [p.2, h2])
    · rename_i hk
      rcases hc with (h1 | h1) | h1
      · rw [hk] at h1
        simp at h1
      · rw [visitExpr_store_nested st f h1 hbad, errBind]
      · cases hvf : visitExpr st f with
        | error e1 =>
          have hE := visitExpr_error_payload st f e1 hvf
          subst hE
          rw [errBind]
        | ok s1 =>
          rw [okBind]
          have p := visitExpr_preserves st f s1 hvf
          refine visitList_store_nested s1 args h1 ?_
          rcases hbad with h2 | h2
          · exact Or.inl (by omega)
          · exact Or.inr (by rw [p.2, h2])

theorem visitList_store_nested (st : TrackerState) (es : PyExprList)
    (hc : containsStoreList es = true) (hbad : 0 < st.read_depth ∨ st.in_store = true) :
    visitList st es = .error .unsupportedWriteNesting := by
  cases es with
  | nil => simp [containsStoreList] at hc
  | cons e es' =>
    simp only [containsStoreList, Bool.or_eq_true] at hc
    simp only [visitList]
    rcases hc with h1 | h1
    · rw [visitExpr_store_nested st e h1 hbad, errBind]
    · cases hve : visitExpr st e with
      | error e1 =>
        have hE := visitExpr_error_payload st e e1 hve
        subst hE
        rw [errBind]
      | ok s1 =>
        rw [okBind]
        have p := visitExpr_preserves st e s1 hve
        refine visitList_store_nested s1 es' h1 ?_
        rcases hbad with h2 | h2
        · exact Or.inl (by omega)
        · exact Or.inr (by rw [p.2, h2])

end

theorem lookupKey_append_some [DecidableEq α] {a : α} {b : β} {l₁ l₂ : List (α × β)}
    (h : lookupKey a l₁ = some b) : lookupKey a (l₁ ++ l₂) = some b := by
  induction l₁ with
  | nil => simp [lookupKey] at h
  | cons p rest ih =>
    rw [List.cons_append]
    simp only [lookupKey] at h ⊢
    split at h
    · simp_all
    · simp_all

theorem lookupKey_append_none [DecidableEq α] {a : α} {l₁ l₂ : List (α × β)}
    (h : lookupKey a l₁ = none) : lookupKey a (l₁ ++ l₂) = lookupKey a l₂ := by
  induction l₁ with
  | nil => simp
  | cons p rest ih =>
    rw [List.cons_append]
    simp only [lookupKey] at h ⊢
    split at h
    · simp_all
    · simp_all

theorem lookupKey_singleton [DecidableEq α] (a x : α) (y : β) :
    lookupKey a [(x, y)] = if x = a then some y else none := by
  simp [lookupKey]

theorem initTable_wf (K : Type) [DecidableEq K] : TableWF (initTable K) := by
  refine ⟨fun i k => ?_, fun i => ?_⟩ <;> simp [initTable, lookupKey]

theorem fresh_handle_not_assigned {t : Table K} (hd : TableDom t) :
    lookupKey t.id_to_kernel.length t.id_to_kernel = none := by
  have h := hd t.id_to_kernel.length
  cases hl : lookupKey t.id_to_kernel.length t.id_to_kernel with
  | none => rfl
  | some k => simp [hl] at h

theorem add_kernel_wf [DecidableEq K] {t : Table K} {k : K} (h : TableWF t) :
    TableWF (add_kernel t k).2 := by
  obtain ⟨hinv, hdom⟩ := h
  cases hc : lookupKey k t.kernel_to_id with
  | some i => simpa [add_kernel, hc] using ⟨hinv, hdom⟩
  | none =>
    have hfresh : lookupKey t.id_to_kernel.length t.id_to_kernel = none :=
      fresh_handle_not_assigned hdom
    constructor
    · intro i k'
      simp only [add_kernel, hc]
      constructor
      · intro hl
        cases h1 : lookupKey i t.id_to_kernel with
        | some k₀ =>
          rw [lookupKey_append_some h1] at hl
          have hk : k₀ = k' := by injection hl
          subst hk
          exact lookupKey_append_some ((hinv i k₀).mp h1)
        | none =>
          rw [lookupKey_append_none h1, lookupKey_singleton] at hl
          split at hl
          · obtain rfl : k = k' := by injection hl
            have hi : t.id_to_kernel.length = i := by assumption
            rw [lookupKey_append_none hc, lookupKey_singleton, if_pos rfl, hi]
          · exact absurd hl (by simp)
      · intro hr
        cases h2 : lookupKey k' t.kernel_to_id with
        | some j =>
          rw [lookupKey_append_some h2] at hr
          have hj : j = i := by injection hr
          subst hj
          exact lookupKey_append_some ((hinv j k').mpr h2)
        | none =>
          rw [lookupKey_append_none h2, lookupKey_singleton] at hr
          split at hr
          · have hn : t.id_to_kernel.length = i := by injection hr
            subst hn
            have hk : k = k' := by assumption
            rw [lookupKey_append_none hfresh, lookupKey_singleton, if_pos rfl, hk]
          · exact absurd hr (by simp)
    · intro i
      simp only [add_kernel, hc]
      rw [List.length_append, List.length_singleton]
      cases h1 : lookupKey i t.id_to_kernel with
      | some k₀ =>
        rw [lookupKey_append_some h1]
        have : i < t.id_to_kernel.length := (hdom i).mp (by simp [h1])
        simp
        omega
      | none =>
        rw [lookupKey_append_none h1, lookupKey_singleton]
        have : ¬ i < t.id_to_kernel.length := by
          intro hlt
          have := (hdom i).mpr hlt
          simp [h1] at this
        split
        · have hi : t.id_to_kernel.length = i := by assumption
          simp
          omega
        · have hi : ¬ t.id_to_kernel.length = i := by assumption
          simp
          omega

theorem add_kernel_id_mono [DecidableEq K] {t : Table K} {k : K} {i : Nat} {k₀ : K}
    (h : lookupKey i t.id_to_kernel = some k₀) :
    lookupKey i (add_kernel t k).2.id_to_kernel = some k₀ := by
  cases hc : lookupKey k t.kernel_to_id with
  | some j => simpa [add_kernel, hc] using h
  | none =>
    simp only [add_kernel, hc]
    exact lookupKey_append_some h

theorem add_kernel_ktid_mono [DecidableEq K] {t : Table K} {k : K} {k' : K} {i : Nat}
    (h : lookupKey k' t.kernel_to_id = some i) :
    lookupKey k' (add_kernel t k).2.kernel_to_id = some i := by
  cases hc : lookupKey k t.kernel_to_id with
  | some j => simpa [add_kernel, hc] using h
  | none =>
    simp only [add_kernel, hc]
    exact lookupKey_append_some h

theorem add_kernel_self [DecidableEq K] (t : Table K) (k : K) :
    lookupKey k (add_kernel t k).2.kernel_to_id = some (add_kernel t k).1 := by
  cases hc : lookupKey k t.kernel_to_id with
  | some i => simp [add_kernel, hc]
  | none =>
    simp only [add_kernel, hc]
    rw [lookupKey_append_none hc, lookupKey_singleton, if_pos rfl]

theorem add_kernel_domain [DecidableEq K] {t : Table K} (k : K) (h : TableWF t) (i : Nat) :
    (lookupKey i (add_kernel t k).2.id_to_kernel).isSome ↔
      ((lookupKey i t.id_to_kernel).isSome ∨ i = (add_kernel t k).1) := by
  obtain ⟨hinv, hdom⟩ := h
  cases hc : lookupKey k t.kernel_to_id with
  | some j =>
    simp only [add_kernel, hc]
    constructor
    · intro hs; exact Or.inl hs
    · intro hor
      rcases hor with hs | hij
      · exact hs
      · rw [hij]
        have hj := (hinv j k).mpr hc
        simp [hj]
  | none =>
    simp only [add_kernel, hc]
    cases h1 : lookupKey i t.id_to_kernel with
    | some k₀ =>
      rw [lookupKey_append_some h1]
      simp
    | none =>
      rw [lookupKey_append_none h1, lookupKey_singleton]
      have hni : ¬ i < t.id_to_kernel.length := by
        intro hlt
        have := (hdom i).mpr hlt
        simp [h1] at this
      split
      · have hi : t.id_to_kernel.length = i := by assumption
        simp [hi.symm]
      · have hi : ¬ t.id_to_kernel.length = i := by assumption
        simp
        omega

theorem registerList_wf [DecidableEq K] (ks : List K) (t : Table K) (h : TableWF t) :
    TableWF (registerList t ks).1 := by
  induction ks generalizing t with
  | nil => simpa [registerList] using h
  | cons k ks ih =>
    simp only [registerList]
    exact ih _ (add_kernel_wf h)

theorem registerList_id_mono [DecidableEq K] (ks : List K) (t : Table K) {i : Nat} {k₀ : K}
    (h : lookupKey i t.id_to_kernel = some k₀) :
    lookupKey i (registerList t ks).1.id_to_kernel = some k₀ := by
  induction ks generalizing t with
  | nil => simpa [registerList] using h
  | cons k ks ih =>
    simp only [registerList]
    exact ih _ (add_kernel_id_mono h)

theorem registerList_ktid_mono [DecidableEq K] (ks : List K) (t : Table K) {k' : K} {i : Nat}
    (h : lookupKey k' t.kernel_to_id = some i) :
    lookupKey k' (registerList t ks).1.kernel_to_id = some i := by
  induction ks generalizing t with
  | nil => simpa [registerList] using h
  | cons k ks ih =>
    simp only [registerList]
    exact ih _ (add_kernel_ktid_mono h)

theorem registerList_length [DecidableEq K] (ks : List K) (t : Table K) :
    (registerList t ks).2.length = ks.length := by
  induction ks generalizing t with
  | nil => simp [registerList]
  | cons k ks ih => simp [registerList, ih]

theorem registerList_assoc [DecidableEq K] (ks : List K) (t : Table K) (j : Nat)
    (kj : K) (hj : Nat) (h1 : ks[j]? = some kj) (h2 : (registerList t ks).2[j]? = some hj) :
    lookupKey kj (registerList t ks).1.kernel_to_id = some hj := by
  induction ks generalizing t j with
  | nil => simp at h1
  | cons k ks ih =>
    simp only [registerList] at h2 ⊢
    cases j with
    | zero =>
      simp at h1 h2
      subst h1; subst h2
      exact registerList_ktid_mono ks _ (add_kernel_self t k)
    | succ j =>
      simp only [List.getElem?_cons_succ] at h1 h2
      exact ih _ j h1 h2

theorem registerList_domain [DecidableEq K] (ks : List K) (t : Table K) (h : TableWF t)
    (i : Nat) :
    (lookupKey i (registerList t ks).1.id_to_kernel).isSome ↔
      ((lookupKey i t.id_to_kernel).isSome ∨ i ∈ (registerList t ks).2) := by
  induction ks generalizing t with
  | nil => simp [registerList]
  | cons k ks ih =>
    simp only [registerList, List.mem_cons]
    rw [ih _ (add_kernel_wf h), add_kernel_domain k h i]
    tauto

/-- C4: in any sequence of register calls starting from the empty side
table, identity-equal kernels always receive the same handle, distinct
kernels receive distinct handles, and resolving a returned handle yields
the registered kernel. -/
theorem C4_register_laws (K : Type) [DecidableEq K] (ks : List K) (i j a b : Nat)
    (ki kj : K)
    (h1 : ks[i]? = some ki) (h2 : ks[j]? = some kj)
    (h3 : (registerList (initTable K) ks).2[i]? = some a)
    (h4 : (registerList (initTable K) ks).2[j]? = some b) :
    (ki = kj → a = b) ∧ (ki ≠ kj → a ≠ b) ∧
      get_kernel (registerList (initTable K) ks).1 a = .ok ki := by
  have hwf : TableWF (registerList (initTable K) ks).1 :=
    registerList_wf ks _ (initTable_wf K)
  have la := registerList_assoc ks (initTable K) i ki a h1 h3
  have lb := registerList_assoc ks (initTable K) j kj b h2 h4
  have lida : lookupKey a (registerList (initTable K) ks).1.id_to_kernel = some ki :=
    (hwf.1 a ki).mpr la
  refine ⟨?_, ?_, ?_⟩
  · rintro rfl
    rw [la] at lb
    injection lb
  · intro hne heq
    subst heq
    have lidb : lookupKey a (registerList (initTable K) ks).1.id_to_kernel = some kj :=
      (hwf.1 a kj).mpr lb
    rw [lida] at lidb
    exact hne (by injection lidb)
  · simp [get_kernel, lida]

theorem C4_register_laws_witness :
    ((5 : Nat) = 5 → (0 : Nat) = 0) ∧ ((5 : Nat) ≠ 5 → (0 : Nat) ≠ 0) ∧
      get_kernel (registerList (initTable Nat) [5, 7, 5]).1 0 = .ok 5 :=
  C4_register_laws Nat [5, 7, 5] 0 2 0 0 5 5 rfl rfl rfl rfl

/-- C5: the two maps of the side table are mutual inverses (with a coherent
handle domain) after every operation, and once a handle has been assigned
to a kernel, no later sequence of register calls changes which kernel it
resolves to. -/
theorem C5_table_invariants (K : Type) [DecidableEq K] (t : Table K) (k : K)
    (hh : Nat) (k₀ : K) (ks : List K) (hwf : TableWF t) :
    TableWF (initTable K) ∧ TableWF (add_kernel t k).2 ∧ TableWF (reset_table t) ∧
      (get_kernel t hh = .ok k₀ → get_kernel (registerList t ks).1 hh = .ok k₀) := by
  refine ⟨initTable_wf K, add_kernel_wf hwf, initTable_wf K, ?_⟩
  intro hres
  have hl : lookupKey hh t.id_to_kernel = some k₀ := by
    revert hres
    unfold get_kernel
    cases hx : lookupKey hh t.id_to_kernel with
    | some k₁ => intro hres; injection hres with h; rw [h]
    | none => intro hres; exact absurd hres (by simp)
  simp [get_kernel, registerList_id_mono ks t hl]

theorem C5_table_invariants_witness :
    TableWF (initTable Nat) ∧ TableWF (add_kernel (initTable Nat) 3).2 ∧
      TableWF (reset_table (initTable Nat)) ∧
      (get_kernel (initTable Nat) 0 = .ok 3 →
        get_kernel (registerList (initTable Nat) [4]).1 0 = .ok 3) :=
  C5_table_invariants Nat (initTable Nat) 3 0 3 [4] (initTable_wf Nat)

/-- C6: after any sequence of register calls from the empty table, resolving
a handle fails with `unknownHandle` exactly when the handle was never issued
by one of those calls; an issued handle resolves to the kernel registered
under it. -/
theorem C6_unknown_handle (K : Type) [DecidableEq K] (ks : List K) (i : Nat) :
    (get_kernel (registerList (initTable K) ks).1 i = .error .unknownHandle ↔
      i ∉ (registerList (initTable K) ks).2) ∧
    (∀ (j : Nat) (ki : K), ks[j]? = some ki →
      (registerList (initTable K) ks).2[j]? = some i →
      get_kernel (registerList (initTable K) ks).1 i = .ok ki) := by
  have hwf : TableWF (registerList (initTable K) ks).1 :=
    registerList_wf ks _ (initTable_wf K)
  constructor
  · have hdom := registerList_domain ks (initTable K) (initTable_wf K) i
    rw [show lookupKey i (initTable K).id_to_kernel = none from rfl] at hdom
    simp only [Option.isSome_none, Bool.false_eq_true, false_or] at hdom
    unfold get_kernel
    cases hx : lookupKey i (registerList (initTable K) ks).1.id_to_kernel with
    | some k => simp [hx] at hdom; simp [hdom]
    | none => simp [hx] at hdom; simp [hdom]
  · intro j ki h1 h2
    have la := registerList_assoc ks (initTable K) j ki i h1 h2
    have lid := (hwf.1 i ki).mpr la
    simp [get_kernel, lid]

theorem C6_unknown_handle_witness :
    get_kernel (registerList (initTable Nat) [9]).1 0 = .ok 9 :=
  (C6_unknown_handle Nat [9] 0).2 0 9 rfl rfl

/-- C1: on a reference to a tracked name, read-context depth > 0 records
nothing, the in-store flag (at depth 0) marks the name mutated, and any
other reference marks it used-opaquely; and a name appears in the list
returned by `filter_non_mutated` iff its final info has the mutated flag
or the used-opaquely flag set. -/
theorem C1_mutation_analyzer (kernel : PyExpr) (tensors : List String)
    (st' : TrackerState) (names : List String)
    (h1 : analyze kernel tensors = .ok st')
    (h2 : filter_non_mutated kernel tensors = .ok names) :
    (∀ (st : TrackerState) (id : String), (lookupKey id st.infos).isSome →
      ((0 < st.read_depth → visit_Name st id = st) ∧
       (st.read_depth = 0 → st.in_store = true →
         visit_Name st id = { st with infos := markMutated st.infos id }) ∧
       (st.read_depth = 0 → st.in_store = false →
         visit_Name st id = { st with infos := markUnknown st.infos id }))) ∧
    (∀ n, n ∈ names ↔ ∃ info, (n, info) ∈ st'.infos ∧
      (info.mutated || info.used_in_unknown) = true) := by
  have hnames : names =
      (st'.infos.filter (fun p => p.2.mutated || p.2.used_in_unknown)).map Prod.fst := by
    unfold filter_non_mutated at h2
    rw [h1, okBind] at h2
    injection h2 with h2
    exact h2.symm
  constructor
  · intro st id hid
    cases hx : lookupKey id st.infos with
    | none => rw [hx] at hid; simp at hid
    | some v =>
      refine ⟨?_, ?_, ?_⟩
      · intro hrd
        simp [visit_Name, hx, hrd]
      · intro hrd hsto
        simp [visit_Name, hx, hrd, hsto]
      · intro hrd hsto
        simp [visit_Name, hx, hrd, hsto]
  · intro n
    subst hnames
    simp only [List.mem_map, List.mem_filter]
    constructor
    · rintro ⟨⟨k, info⟩, ⟨hm, hf⟩, rfl⟩
      exact ⟨info, hm, hf⟩
    · rintro ⟨info, hm, hf⟩
      exact ⟨(n, info), ⟨hm, hf⟩, rfl⟩

theorem C1_mutation_analyzer_witness :
    "p" ∈ ["p"] ↔ ∃ info, ("p", info) ∈
        ([("p", ⟨true, false⟩), ("q", ⟨false, false⟩)] : List (String × MutationInfo)) ∧
      (info.mutated || info.used_in_unknown) = true :=
  (C1_mutation_analyzer storeKernelW ["p", "q"]
    ⟨[("p", ⟨true, false⟩), ("q", ⟨false, false⟩)], 0, false⟩ ["p"] rfl rfl).2 "p"

/-- C7 counterexample: a kernel containing a store inside the condition of
another expression on which the analysis pass completes normally
(classifying `p` as mutated) instead of raising `unsupportedWriteNesting`. -/
theorem C7_counterexample_cond_store :
    filter_non_mutated condStoreKernel ["p"] = .ok ["p"] ∧
      containsStore condStoreKernel = true := ⟨rfl, rfl⟩

/-- C7 (amended): the analyzer raises `unsupportedWriteNesting` whenever a
store call occurs anywhere inside a read context or inside another store;
in particular analysing `tl.load(a if tl.store(p) else z)`, whose store
sits in the condition of a conditional expression nested in a read call,
fails with `unsupportedWriteNesting`. -/
theorem C7_nested_write (st : TrackerState) (e : PyExpr)
    (hc : containsStore e = true)
    (hbad : 0 < st.read_depth ∨ st.in_store = true) :
    visitExpr st e = .error .unsupportedWriteNesting ∧
      filter_non_mutated loadCondStoreKernel ["p"] = .error .unsupportedWriteNesting :=
  ⟨visitExpr_store_nested st e hc hbad, rfl⟩

theorem C7_nested_write_witness :
    visitExpr ⟨[], 1, false⟩ (.call (.attrRef (.pyname "tl") "store") .nil) =
        .error .unsupportedWriteNesting ∧
      filter_non_mutated loadCondStoreKernel ["p"] = .error .unsupportedWriteNesting :=
  C7_nested_write ⟨[], 1, false⟩ (.call (.attrRef (.pyname "tl") "store") .nil) rfl
    (Or.inl Nat.one_pos)

theorem clone_next_le (h : Heap) (v : Val) :
    h.next ≤ (clone_preserve_strides h v).2.next := by
  cases v with
  | scalar n => exact Nat.le_refl _
  | buf a => exact Nat.le_succ _

theorem clone_mem_low (h : Heap) (v : Val) (a : Nat) (ha : a < h.next) :
    (clone_preserve_strides h v).2.mem a = h.mem a := by
  cases v with
  | scalar n => rfl
  | buf b =>
    show (if a = h.next then h.mem b else h.mem a) = h.mem a
    rw [if_neg (by omega)]

theorem bwc_next_le (kw : List (String × Val)) (ttc : List String) (h : Heap) :
    h.next ≤ (buildWorkingCopy h kw ttc).2.next := by
  induction kw generalizing h with
  | nil => exact Nat.le_refl _
  | cons p rest ih =>
    obtain ⟨k, v⟩ := p
    simp only [buildWorkingCopy]
    split
    · exact Nat.le_trans (clone_next_le h v) (ih _)
    · exact ih h

theorem bwc_mem_low (kw : List (String × Val)) (ttc : List String) (h : Heap)
    (a : Nat) (ha : a < h.next) :
    (buildWorkingCopy h kw ttc).2.mem a = h.mem a := by
  induction kw generalizing h with
  | nil => rfl
  | cons p rest ih =>
    obtain ⟨k, v⟩ := p
    simp only [buildWorkingCopy]
    split
    · rw [ih (clone_preserve_strides h v).2
        (Nat.lt_of_lt_of_le ha (clone_next_le h v)), clone_mem_low h v a ha]
    · exact ih h ha

theorem bwc_filter_keys (ttc : List String) (kw : List (String × Val)) (h : Heap) :
    ((buildWorkingCopy h kw ttc).1.filter (fun p => decide (p.1 ∈ ttc))).map Prod.fst =
      (kw.filter (fun p => decide (p.1 ∈ ttc))).map Prod.fst := by
  induction kw generalizing h with
  | nil => rfl
  | cons p rest ih =>
    obtain ⟨k, v⟩ := p
    simp only [buildWorkingCopy]
    by_cases hk : k ∈ ttc
    · rw [if_pos hk]
      simp only [List.filter_cons, decide_eq_true hk, if_pos trivial, List.map_cons]
      rw [ih]
    · rw [if_neg hk]
      simp only [List.filter_cons, decide_eq_false hk]
      simp only [Bool.false_eq_true, if_false]
      rw [ih]

theorem bwc_nonclone_mem (ttc : List String) (k : String) (v : Val) (hn : k ∉ ttc)
    (kw : List (String × Val)) (h : Heap) (hm : (k, v) ∈ kw) :
    (k, v) ∈ (buildWorkingCopy h kw ttc).1 := by
  induction kw generalizing h with
  | nil => simp at hm
  | cons p rest ih =>
    obtain ⟨k0, v0⟩ := p
    simp only [buildWorkingCopy]
    rcases List.mem_cons.mp hm with heq | htail
    · injection heq with h1 h2
      subst h1
      subst h2
      rw [if_neg hn]
      exact List.mem_cons_self _ _
    · by_cases hk0 : k0 ∈ ttc
      · rw [if_pos hk0]
        exact List.mem_cons_of_mem _ (ih _ htail)
      · rw [if_neg hk0]
        exact List.mem_cons_of_mem _ (ih _ htail)

theorem bwc_clone_entries (ttc : List String) (k : String) (hk : k ∈ ttc)
    (kw : List (String × Val)) :
    ∀ (h : Heap), (∀ p ∈ kw, p.1 ∈ ttc → p.2.isBuf = true) →
      ∀ v, (k, v) ∈ (buildWorkingCopy h kw ttc).1 →
      ∃ a, v = Val.buf a ∧ h.next ≤ a := by
  induction kw with
  | nil =>
    intro h _ v hm
    simp [buildWorkingCopy] at hm
  | cons p rest ih =>
    intro h hbuf v hm
    obtain ⟨k0, v0⟩ := p
    simp only [buildWorkingCopy] at hm
    by_cases hk0 : k0 ∈ ttc
    · rw [if_pos hk0] at hm
      rcases List.mem_cons.mp hm with heq | htail
      · have hv0 : v0.isBuf = true := hbuf (k0, v0) (List.mem_cons_self _ _) hk0
        injection heq with h1 h2
        cases v0 with
        | scalar n => simp [Val.isBuf] at hv0
        | buf a0 =>
          refine ⟨h.next, ?_, Nat.le_refl _⟩
          rw [h2]
          rfl
      · obtain ⟨a, ha1, ha2⟩ :=
          ih _ (fun p hp => hbuf p (List.mem_cons_of_mem _ hp)) v htail
        exact ⟨a, ha1, Nat.le_trans (clone_next_le h v0) ha2⟩
    · rw [if_neg hk0] at hm
      rcases List.mem_cons.mp hm with heq | htail
      · injection heq with h1 h2
        subst h1
        exact absurd hk hk0
      · exact ih _ (fun p hp => hbuf p (List.mem_cons_of_mem _ hp)) v htail

theorem ffc_filter_keys (ttc : List String) (kw : List (String × Val)) (h : Heap) :
    (triton_kernel_wrapper_functional_fake_tensor_mode h kw ttc).1.map Prod.fst =
      (kw.filter (fun p => decide (p.1 ∈ ttc))).map Prod.fst := by
  induction kw generalizing h with
  | nil => rfl
  | cons p rest ih =>
    obtain ⟨k, v⟩ := p
    simp only [triton_kernel_wrapper_functional_fake_tensor_mode]
    by_cases hk : k ∈ ttc
    · rw [if_pos hk]
      simp only [List.filter_cons, decide_eq_true hk, if_pos trivial, List.map_cons]
      rw [ih]
    · rw [if_neg hk]
      simp only [List.filter_cons, decide_eq_false hk]
      simp only [Bool.false_eq_true, if_false]
      exact ih h

theorem ffc_fresh (ttc : List String) (kw : List (String × Val)) :
    ∀ (h : Heap), (∀ p ∈ kw, p.1 ∈ ttc → p.2.isBuf = true) →
      ∀ p ∈ (triton_kernel_wrapper_functional_fake_tensor_mode h kw ttc).1,
      ∃ a, p.2 = Val.buf a ∧ h.next ≤ a := by
  induction kw with
  | nil =>
    intro h _ p hp
    simp [triton_kernel_wrapper_functional_fake_tensor_mode] at hp
  | cons q rest ih =>
    intro h hbuf p hp
    obtain ⟨k0, v0⟩ := q
    simp only [triton_kernel_wrapper_functional_fake_tensor_mode] at hp
    by_cases hk0 : k0 ∈ ttc
    · rw [if_pos hk0] at hp
      rcases List.mem_cons.mp hp with heq | htail
      · have hv0 : v0.isBuf = true := hbuf (k0, v0) (List.mem_cons_self _ _) hk0
        cases v0 with
        | scalar n => simp [Val.isBuf] at hv0
        | buf a0 =>
          subst heq
          exact ⟨h.next, rfl, Nat.le_refl _⟩
      · obtain ⟨a, ha1, ha2⟩ :=
          ih _ (fun q hq => hbuf q (List.mem_cons_of_mem _ hq)) p htail
        exact ⟨a, ha1, Nat.le_trans (clone_next_le h v0) ha2⟩
    · rw [if_neg hk0] at hp
      exact ih _ (fun q hq => hbuf q (List.mem_cons_of_mem _ hq)) p hp

theorem ffc_mem_low (ttc : List String) (kw : List (String × Val)) (h : Heap)
    (a : Nat) (ha : a < h.next) :
    (triton_kernel_wrapper_functional_fake_tensor_mode h kw ttc).2.mem a = h.mem a := by
  induction kw generalizing h with
  | nil => rfl
  | cons p rest ih =>
    obtain ⟨k, v⟩ := p
    simp only [triton_kernel_wrapper_functional_fake_tensor_mode]
    split
    · rw [ih (clone_preserve_strides h v).2
        (Nat.lt_of_lt_of_le ha (clone_next_le h v)), clone_mem_low h v a ha]
    · exact ih h ha

/-- C2: concrete execution of the functional form replaces each bundle
entry named in `tensors_to_clone` by a fresh stride-preserving clone,
invokes the mutating form on the working copy, and returns exactly the
`tensors_to_clone` entries of the bundle (now the clones); provided the
kernel writes only to buffers bound to clone-listed names of the bundle
it receives, the caller's original buffers for those names are left
unmodified. -/
theorem C2_functional_dense (run : KernelSem) (h : Heap) (kwargs : List (String × Val))
    (ttc : List String)
    (hvalid : ∀ p ∈ kwargs, ∀ a, p.2 = Val.buf a → a < h.next)
    (hbuf : ∀ p ∈ kwargs, p.1 ∈ ttc → p.2.isBuf = true)
    (hframe : ∀ (b : List (String × Val)) (hh : Heap) (a : Nat),
      (¬ ∃ k, k ∈ ttc ∧ (k, Val.buf a) ∈ b) → (run b hh).mem a = hh.mem a) :
    ((triton_kernel_wrapper_functional_dense run h kwargs ttc).1.map Prod.fst =
      (kwargs.filter (fun p => decide (p.1 ∈ ttc))).map Prod.fst) ∧
    (∀ p ∈ (triton_kernel_wrapper_functional_dense run h kwargs ttc).1,
      p.1 ∈ ttc ∧ ∃ a, p.2 = Val.buf a ∧ h.next ≤ a) ∧
    (∀ k a, (k, Val.buf a) ∈ kwargs → k ∈ ttc →
      (triton_kernel_wrapper_functional_dense run h kwargs ttc).2.mem a = h.mem a) := by
  refine ⟨bwc_filter_keys ttc kwargs h, ?_, ?_⟩
  · intro p hp
    obtain ⟨k, v⟩ := p
    have hp' : (k, v) ∈ (buildWorkingCopy h kwargs ttc).1.filter
        (fun q => decide (q.1 ∈ ttc)) := hp
    rw [List.mem_filter] at hp'
    have hk : k ∈ ttc := of_decide_eq_true hp'.2
    exact ⟨hk, bwc_clone_entries ttc k hk kwargs h hbuf v hp'.1⟩
  · intro k a hmem hk
    have ha : a < h.next := hvalid (k, Val.buf a) hmem a rfl
    have hfr : (run (buildWorkingCopy h kwargs ttc).1 (buildWorkingCopy h kwargs ttc).2).mem a
        = (buildWorkingCopy h kwargs ttc).2.mem a := by
      apply hframe
      rintro ⟨k', hk', hmem'⟩
      obtain ⟨a', ha1, ha2⟩ := bwc_clone_entries ttc k' hk' kwargs h hbuf _ hmem'
      injection ha1 with heq
      omega
    exact hfr.trans (bwc_mem_low kwargs ttc h a ha)

theorem C2_functional_dense_witness :
    (triton_kernel_wrapper_functional_dense (fun _ hh => hh) ⟨fun _ => [0, 0, 0], 1⟩
        [("out", Val.buf 0)] ["out"]).2.mem 0 = (⟨fun _ => [0, 0, 0], 1⟩ : Heap).mem 0 :=
  (C2_functional_dense (fun _ hh => hh) ⟨fun _ => [0, 0, 0], 1⟩ [("out", Val.buf 0)] ["out"]
    (by
      intro p hp a hv
      rw [List.mem_singleton] at hp
      subst hp
      injection hv with hv
      subst hv
      show (0 : Nat) < 1
      decide)
    (by decide)
    (fun _ _ _ _ => rfl)).2.2 "out" 0 (List.mem_singleton.mpr rfl) (by decide)

/-- C9: a bundle entry whose name is not in `tensors_to_clone` is passed
to the mutating invocation as the caller's original object (same key and
same buffer address in the working copy), and consequently a kernel that
writes in place to such an unlisted argument mutates the caller's
original buffer, as the concrete run shows. -/
theorem C9_unlisted_args :
    (∀ (h : Heap) (kwargs : List (String × Val)) (ttc : List String) (k : String) (v : Val),
      (k, v) ∈ kwargs → k ∉ ttc → (k, v) ∈ (buildWorkingCopy h kwargs ttc).1) ∧
    ((triton_kernel_wrapper_functional_dense demoWriteRun demoHeap
        [("x", Val.buf 0)] []).2.mem 0 = [42] ∧
      demoHeap.mem 0 = [0] ∧
      (triton_kernel_wrapper_functional_dense demoWriteRun demoHeap
        [("x", Val.buf 0)] []).1 = []) :=
  ⟨fun h kwargs ttc k v hm hn => bwc_nonclone_mem ttc k v hn kwargs h hm,
   rfl, rfl, rfl⟩

theorem C9_unlisted_args_witness :
    ("a", Val.buf 3) ∈ (buildWorkingCopy demoHeap [("a", Val.buf 3)] ["b"]).1 :=
  C9_unlisted_args.1 demoHeap [("a", Val.buf 3)] ["b"] "a" (Val.buf 3)
    (List.mem_singleton.mpr rfl) (by decide)

/-- C8 counterexample: with bundle `[a]` and mutated-name set `[b]`, the
fake-mode functional form returns an empty mapping, not one clone per
name in the mutated-name set. -/
theorem C8_counterexample_absent_name :
    (triton_kernel_wrapper_functional_fake_tensor_mode ⟨fun _ => [], 1⟩
        [("a", Val.buf 0)] ["b"]).1 = [] := rfl

/-- C8 (amended): in fake-tensor mode the mutating form performs no real
invocation and returns nothing, for every input, without error and
without touching any buffer; and the functional form returns exactly one
fresh (independent) clone per bundle entry named in `tensors_to_clone`,
without running the kernel and without touching pre-existing buffers. -/
theorem C8_fake_modes (h : Heap) (kidx : Nat) (kwargs : List (String × Val))
    (ttc : List String)
    (hbuf : ∀ p ∈ kwargs, p.1 ∈ ttc → p.2.isBuf = true) :
    (triton_kernel_wrapper_mutation_fake_tensor_mode h kidx kwargs = (none, h)) ∧
    ((triton_kernel_wrapper_functional_fake_tensor_mode h kwargs ttc).1.map Prod.fst =
      (kwargs.filter (fun p => decide (p.1 ∈ ttc))).map Prod.fst) ∧
    (∀ p ∈ (triton_kernel_wrapper_functional_fake_tensor_mode h kwargs ttc).1,
      ∃ a, p.2 = Val.buf a ∧ h.next ≤ a) ∧
    (∀ a, a < h.next →
      (triton_kernel_wrapper_functional_fake_tensor_mode h kwargs ttc).2.mem a = h.mem a) :=
  ⟨rfl, ffc_filter_keys ttc kwargs h, ffc_fresh ttc kwargs h hbuf,
   fun a ha => ffc_mem_low ttc kwargs h a ha⟩

theorem C8_fake_modes_witness :
    (triton_kernel_wrapper_functional_fake_tensor_mode ⟨fun _ => [7], 1⟩
        [("a", Val.buf 0)] ["a"]).1.map Prod.fst =
      ([("a", Val.buf 0)].filter (fun p => decide (p.1 ∈ ["a"]))).map Prod.fst :=
  (C8_fake_modes ⟨fun _ => [7], 1⟩ 0 [("a", Val.buf 0)] ["a"] (by decide)).2.1

theorem reconcileLoop_ok (kwargs : List (String × Val)) (outs : List (String × Val))
    (hgood : ∀ p ∈ outs, p.2.isBuf = true → ∃ b, lookupKey p.1 kwargs = some (Val.buf b)) :
    reconcileLoop kwargs outs = .ok ((outs.filter (fun p => p.2.isBuf)).flatMap
      (fun p => [.replaceEv p.1 p.2, .markHiddenEv p.1, .commitEv p.1,
                 .syncEv p.1, .markHiddenEv p.1])) := by
  induction outs with
  | nil => rfl
  | cons q rest ih =>
    obtain ⟨k, v⟩ := q
    cases v with
    | scalar n =>
      simp only [reconcileLoop]
      rw [ih (fun p hp => hgood p (List.mem_cons_of_mem _ hp))]
      simp [List.filter_cons, Val.isBuf]
    | buf a =>
      obtain ⟨b, hb⟩ := hgood (k, Val.buf a) (List.mem_cons_self _ _) rfl
      simp only [reconcileLoop]
      split
      · rw [ih (fun p hp => hgood p (List.mem_cons_of_mem _ hp)), okBind]
        simp [List.filter_cons, Val.isBuf]
      · rename_i hlk
        exact absurd hb (hlk b)

/-- C3: when the bridge intercepts a mutating-form call (with the kernel
fetched and analyzed), it fails with `mutatedOutputOutOfScope` if the
functional form returns a mapping naming any key absent from the original
bundle; otherwise, for every returned buffer whose original argument is a
tensor, it emits replace, mark-hidden, commit, sync, mark-hidden (hiding
the replace from autograd immediately and again after sync) per returned
buffer in order, and returns nothing. -/
theorem C3_functionalization_bridge (t : Table PyExpr) (kidx : Nat)
    (kwargs : List (String × Val))
    (functionalImpl : List (String × Val) → List String → List (String × Val))
    (kernel : PyExpr) (ttc : List String)
    (hk : get_kernel t kidx = .ok kernel)
    (hf : filter_non_mutated kernel
      ((kwargs.filter (fun p => p.2.isBuf)).map Prod.fst) = .ok ttc) :
    ((∃ p ∈ functionalImpl kwargs ttc, lookupKey p.1 kwargs = none) →
      triton_kernel_wrapper_mutation_functionalize t kidx kwargs functionalImpl =
        .error .mutatedOutputOutOfScope) ∧
    ((∀ p ∈ functionalImpl kwargs ttc, ∃ v, lookupKey p.1 kwargs = some v ∧
        (p.2.isBuf = true → v.isBuf = true)) →
      triton_kernel_wrapper_mutation_functionalize t kidx kwargs functionalImpl =
        .ok (((functionalImpl kwargs ttc).filter (fun p => p.2.isBuf)).flatMap
          (fun p => [.replaceEv p.1 p.2, .markHiddenEv p.1, .commitEv p.1,
                     .syncEv p.1, .markHiddenEv p.1]), none)) := by
  have hunf : triton_kernel_wrapper_mutation_functionalize t kidx kwargs functionalImpl =
      (if (functionalImpl kwargs ttc).all (fun p => (lookupKey p.1 kwargs).isSome) then do
        let evs ← reconcileLoop kwargs (functionalImpl kwargs ttc)
        (.ok (evs, none) : Except Err (List FEvent × Option Val))
      else .error .mutatedOutputOutOfScope) := by
    simp only [triton_kernel_wrapper_mutation_functionalize]
    rw [hk, okBind, hf, okBind]
  constructor
  · rintro ⟨p, hp, hnone⟩
    rw [hunf, if_neg]
    intro hall
    have hs := List.all_eq_true.mp hall p hp
    rw [hnone] at hs
    simp at hs
  · intro hgood
    have hall : (functionalImpl kwargs ttc).all
        (fun p => (lookupKey p.1 kwargs).isSome) = true := by
      apply List.all_eq_true.mpr
      intro p hp
      obtain ⟨v, hv, _⟩ := hgood p hp
      simp [hv]
    have hQ : ∀ p ∈ functionalImpl kwargs ttc, p.2.isBuf = true →
        ∃ b, lookupKey p.1 kwargs = some (Val.buf b) := by
      intro p hp hB
      obtain ⟨v, hv, himp⟩ := hgood p hp
      cases v with
      | scalar n =>
        have hfalse := himp hB
        simp [Val.isBuf] at hfalse
      | buf b => exact ⟨b, hv⟩
    rw [hunf, if_pos hall, reconcileLoop_ok kwargs _ hQ, okBind]

theorem C3_functionalization_bridge_witness :
    triton_kernel_wrapper_mutation_functionalize
        ⟨[(0, PyExpr.node .nil)], [(PyExpr.node .nil, 0)]⟩ 0
        [("a", Val.buf 0)] (fun _ _ => [("z", Val.buf 5)]) =
      .error .mutatedOutputOutOfScope :=
  (C3_functionalization_bridge ⟨[(0, PyExpr.node .nil)], [(PyExpr.node .nil, 0)]⟩ 0
    [("a", Val.buf 0)] (fun _ _ => [("z", Val.buf 5)]) (.node .nil) [] rfl rfl).1
    ⟨("z", Val.buf 5), List.mem_singleton.mpr rfl, rfl⟩

end TritonWrap



